import Mathlib

/-!
Verification of the `hello_go` and `hello_c` telemetry examples.

Shallow embedding of `examples/hello_go/main.go` and `examples/hello_c/main.go`:

* the event record codec (`binary.Read` into the 24-byte `eventData` record),
* the two name renderers (`unix.ByteSliceToString`, `bytes.TrimRight`),
* the two event consumption loops,
* the setup / teardown skeleton of the two `main` functions (deferred `Close`
  calls, `log.Fatal` exits),
* the instruction sequence assembled in `hello_go`.

Bytes are `Fin 256`; Go strings are byte lists; unsigned 32-bit values are
naturals reduced modulo `2 ^ 32`.
-/

namespace Ebpf

/-! ## Event record codec -/

/-- A Go `byte`. -/
abbrev Byte := Fin 256

/-- Reduction of a natural number to a Go `uint32`. -/
def u32 (n : Nat) : Nat := n % 2 ^ 32

/-- The record `eventData` of `hello_go/main.go` (lines 21-25):
`Uid uint32; Pid uint32; Comm [16]byte`. -/
structure eventData where
  Uid : Nat
  Pid : Nat
  Comm : List Byte
deriving DecidableEq, Repr

/-- The Go zero value of `eventData` (`var data eventData`). -/
def eventData.zero : eventData :=
  { Uid := 0, Pid := 0, Comm := List.replicate 16 0 }

/-- Size in bytes that `encoding/binary` computes for `eventData`: the sum of
the sizes of its fields. -/
def dataSize : Nat := 4 + 4 + 16

/-- The two errors `io.ReadFull` returns on an in-memory reader. -/
inductive ReadFullError where
  | EOF
  | ErrUnexpectedEOF
deriving DecidableEq, Repr

/-- The reader `bytes.NewReader(s)` of `hello_go` (for the calls made here
`bytes.NewBuffer(s)` of `hello_c` behaves alike): the bytes and the read
index. -/
structure Reader where
  s : List Byte
  i : Nat
deriving DecidableEq, Repr

/-- The method `Read(b)` of the reader, with `len(b) = n`:
`if r.i >= len(r.s) { return 0, io.EOF }; n = copy(b, r.s[r.i:]); r.i += n`.
Returns the bytes copied, the error and the reader after the call. -/
def Reader.Read (r : Reader) (n : Nat) : List Byte × Option ReadFullError × Reader :=
  if r.s.length ≤ r.i then ([], some .EOF, r)
  else
    let chunk := (r.s.drop r.i).take n
    (chunk, none, { r with i := r.i + chunk.length })

/-- The loop of `io.ReadAtLeast(r, buf, min)`:
`for n < min && err == nil { nn, err = r.Read(buf[n:]); n += nn }`, where
`got` holds the `n` bytes read so far and `size = len(buf)`; run for at most
`fuel` iterations. -/
def ReadAtLeastLoop : Nat → Reader → List Byte → Nat → Nat → Option ReadFullError →
    List Byte × Option ReadFullError
  | 0, _, got, _, _, err => (got, err)
  | fuel + 1, r, got, size, min, err =>
    if got.length < min ∧ err = none then
      match r.Read (size - got.length) with
      | (chunk, err1, r1) => ReadAtLeastLoop fuel r1 (got ++ chunk) size min err1
    else (got, err)

/-- The call `io.ReadFull(r, buf)` of Go, that is `io.ReadAtLeast(r, buf, len(buf))`,
on a fresh reader over `raw` with `len(buf) = n`: after the loop,
`if n >= min { err = nil } else if n > 0 && err == EOF { err = ErrUnexpectedEOF }`.
Every iteration but the last reads at least one byte, so `n + 1` iterations
are enough. Returns the bytes read and the error. -/
def ReadFull (raw : List Byte) (n : Nat) : List Byte × Option ReadFullError :=
  match ReadAtLeastLoop (n + 1) ⟨raw, 0⟩ [] n n none with
  | (got, err) =>
    if n ≤ got.length then (got, none)
    else if 0 < got.length ∧ err = some .EOF then (got, some .ErrUnexpectedEOF)
    else (got, err)

/-- The function `binary.LittleEndian.Uint32(b)` of Go:
`uint32(b[0]) | uint32(b[1])<<8 | uint32(b[2])<<16 | uint32(b[3])<<24`. -/
def LittleEndian.Uint32 (b : List Byte) : Nat :=
  u32 (u32 (u32 (b.getD 0 0).val ||| u32 ((b.getD 1 0).val <<< 8))
        ||| u32 ((b.getD 2 0).val <<< 16))
    ||| u32 ((b.getD 3 0).val <<< 24)

/-- The field-by-field decoder of `encoding/binary` run over the filled
buffer: `Uid` from the first four bytes, `Pid` from the next four, `Comm` from
the sixteen bytes after them. -/
def decodeValue (buf : List Byte) : eventData :=
  { Uid := LittleEndian.Uint32 (buf.take 4)
    Pid := LittleEndian.Uint32 ((buf.drop 4).take 4)
    Comm := ((buf.drop 8).take 16) }

/-- The call `binary.Read(bytes.NewReader(raw), binary.LittleEndian, &data)`
(`hello_go` line 133, `hello_c` line 89):
`if _, err := io.ReadFull(r, d.buf); err != nil { return err }; d.value(v)`
with a buffer of `dataSize` bytes. Returns the error (`none` for `nil`) and the
contents of `data` after the call. -/
def binary.Read (raw : List Byte) (data : eventData) : Option ReadFullError × eventData :=
  match ReadFull raw dataSize with
  | (_, some err) => (some err, data)
  | (buf, none) => (none, decodeValue buf)

/-! ## Name rendering -/

/-- The function `bytes.IndexByte(s, c)` of Go: index of the first `c` in `s`, or `-1`. -/
def IndexByte : List Byte → Byte → Int
  | [], _ => -1
  | b :: rest, c =>
    if b = c then 0
    else
      let i := IndexByte rest c
      if i = -1 then -1 else i + 1

/-- The renderer of `hello_c` (line 94), `unix.ByteSliceToString(s)`:
`if i := bytes.IndexByte(s, 0); i != -1 { s = s[:i] }; return string(s)`. -/
def ByteSliceToString (s : List Byte) : List Byte :=
  let i := IndexByte s 0
  if i ≠ -1 then s.take i.toNat else s

/-- The loop of `trimRightByte(s, c)` in package `bytes`:
`for len(s) > 0 && s[len(s)-1] == c { s = s[:len(s)-1] }`, run for at most
`fuel` iterations. -/
def trimRightByteLoop : Nat → List Byte → Byte → List Byte
  | 0, s, _ => s
  | fuel + 1, s, c =>
    if 0 < s.length ∧ s.getLast? = some c then trimRightByteLoop fuel s.dropLast c
    else s

/-- The function `trimRightByte(s, c)` of package `bytes`; every iteration shortens `s`, so `len(s)`
iterations are enough. -/
def trimRightByte (s : List Byte) (c : Byte) : List Byte :=
  trimRightByteLoop s.length s c

/-- The renderer of `hello_go` (line 138), `string(bytes.TrimRight(s, "\x00"))`:
with a one-byte ASCII cutset `bytes.TrimRight` is `trimRightByte`. -/
def TrimRightNul (s : List Byte) : List Byte :=
  trimRightByte s 0

/-- The text the rendering requirement asks for: the bytes strictly before the
first NUL byte, or the whole field when it holds no NUL. -/
def untilFirstNul (s : List Byte) : List Byte :=
  s.takeWhile (fun b => b ≠ 0)

/-- The name field `"cat"` followed by thirteen NUL bytes. -/
def catField : List Byte := [99, 97, 116] ++ List.replicate 13 0

/-- A name field with a NUL byte inside: `"a"`, NUL, `"b"`, thirteen NULs. -/
def interiorNulField : List Byte := [97, 0, 98] ++ List.replicate 13 0

/-! ## Event consumption loops -/

/-- An error returned by `rd.Read()`. `isClosed` is the value of
`errors.Is(err, ErrClosed)`. -/
structure ReadErr where
  isClosed : Bool
  msg : String
deriving DecidableEq, Repr

/-- What one call of `rd.Read()` returns: a record (only its `RawSample` is
used by the loops) or an error. -/
inductive ReadResult where
  | record (RawSample : List Byte)
  | fault (err : ReadErr)
deriving DecidableEq, Repr

/-- The lines the two programs write to the log. -/
inductive LogEntry where
  /-- The line of `log.Println("Waiting for events..")`. -/
  | waiting
  /-- The line of `log.Println("Received signal, exiting..")`. -/
  | exiting
  /-- The line of `log.Printf("reading from reader: %s", err)`. -/
  | readingFault (err : ReadErr)
  /-- The line of `log.Printf("parsing perf event: %s", err)` in `hello_go`, of
  `log.Printf("parsing ringbuf event: %s", err)` in `hello_c`. -/
  | parsingFault (err : ReadFullError)
  /-- The report of one event: uid, pid and the rendered name. -/
  | event (uid pid : Nat) (comm : List Byte)
deriving DecidableEq, Repr

/-- Outcome of running a consumption loop over the results its reads return:
the log lines written, whether the loop executed `return`, and the read
results that were never consumed. When the results run out the loop is left
waiting in `rd.Read()` (`returned = false`). -/
structure LoopResult where
  log : List LogEntry
  returned : Bool
  unread : List ReadResult
deriving DecidableEq, Repr

/-- The `for` loop of `hello_go/main.go` (lines 121-139). -/
def helloGoLoop : List ReadResult → LoopResult
  | [] => { log := [], returned := false, unread := [] }
  | .fault err :: rest =>
    if err.isClosed then
      { log := [.exiting], returned := true, unread := rest }
    else
      let r := helloGoLoop rest
      { r with log := .readingFault err :: r.log }
  | .record raw :: rest =>
    match binary.Read raw eventData.zero with
    | (some err, _) =>
      let r := helloGoLoop rest
      { r with log := .parsingFault err :: r.log }
    | (none, data) =>
      let r := helloGoLoop rest
      { r with log := .event data.Uid data.Pid (TrimRightNul data.Comm) :: r.log }

/-- Modelled from the spec: the record type `bpfEvent` of `hello_c`, generated
from the C source and not among the sources at hand. The specification gives
the record one layout on both sides: a 4-byte uid, a 4-byte pid and a 16-byte
name, as in `eventData`. -/
abbrev bpfEvent := eventData

/-- The `for` loop of `hello_c/main.go` (lines 78-95); `event` is the record
variable declared once before the loop (line 77) and reused by every
iteration. -/
def helloCLoop (event : bpfEvent) : List ReadResult → LoopResult
  | [] => { log := [], returned := false, unread := [] }
  | .fault err :: rest =>
    if err.isClosed then
      { log := [.exiting], returned := true, unread := rest }
    else
      let r := helloCLoop event rest
      { r with log := .readingFault err :: r.log }
  | .record raw :: rest =>
    match binary.Read raw event with
    | (some err, event1) =>
      let r := helloCLoop event1 rest
      { r with log := .parsingFault err :: r.log }
    | (none, event1) =>
      let r := helloCLoop event1 rest
      { r with log := .event event1.Uid event1.Pid (ByteSliceToString event1.Comm) :: r.log }

/-- The events reported in a log, in order. -/
def reportedEvents : List LogEntry → List (Nat × Nat × List Byte)
  | [] => []
  | .event uid pid comm :: rest => (uid, pid, comm) :: reportedEvents rest
  | _ :: rest => reportedEvents rest

/-- The read faults logged, in order. -/
def loggedFaults : List LogEntry → List ReadErr
  | [] => []
  | .readingFault err :: rest => err :: loggedFaults rest
  | _ :: rest => loggedFaults rest

/-- A valid 24-byte record: uid 1000, pid 4242, name `"cat"`. -/
def validRecordA : List Byte :=
  [232, 3, 0, 0, 146, 16, 0, 0] ++ catField

/-- A second valid 24-byte record: uid 0, pid 1, name `"sh"`. -/
def validRecordB : List Byte :=
  [0, 0, 0, 0, 1, 0, 0, 0] ++ ([115, 104] ++ List.replicate 14 0)

/-- A malformed 10-byte record. -/
def malformedRecord : List Byte := List.replicate 10 7

/-! ## Setup and teardown of the two `main` functions

`main` is a straight line of setup calls, each followed by
`if err != nil { log.Fatal... }`, interleaved with `defer` statements, then
the consumption loop. Go runs the deferred calls of a function, last
registered first, when the function returns; `log.Fatal` and `log.Fatalf`
write the message and call `os.Exit(1)`, which ends the process at once
without running deferred calls.

Both programs also start a goroutine, `go func() { <-stopper; rd.Close() }()`,
that closes the reader when the process receives a signal. That `rd.Close()`
is what makes `rd.Read()` return the closed condition, so a run places the
close of the goroutine right before the line the loop logs on that condition;
the signal is taken to arrive while the loop runs. The deferred `rd.Close()`
that runs afterwards finds the reader already closed. Errors of `Close` are
not modelled. -/

/-- The resources `hello_go` acquires: the perf event array `events`, the perf
reader `rd`, the program `prog`, the raw tracepoint link `tp`. -/
inductive GoRes where
  | events
  | rd
  | prog
  | tp
deriving DecidableEq, Repr

/-- The resources `hello_c` acquires: the loaded objects `objs`, the kprobe
link `kp`, the ring buffer reader `rd`. -/
inductive CRes where
  | objs
  | kp
  | rd
deriving DecidableEq, Repr

/-- A setup call that can fail: `rlimit.RemoveMemlock()` or the call that
acquires resource `r`. -/
inductive SetupCall (R : Type) where
  | RemoveMemlock
  | acquire (r : R)
deriving DecidableEq, Repr

/-- The statements of `main` that matter for setup and teardown. -/
inductive Stmt (R : Type) where
  /-- A setup call guarded by `if err != nil { log.Fatal(f)(...) }`. -/
  | attempt (c : SetupCall R)
  /-- The statement `defer r.Close()` (or the deferred closure calling it). -/
  | deferClose (r : R)
  /-- The statement `go func() { <-stopper; r.Close() }()`, which starts the
  goroutine that closes `r` when a signal arrives. -/
  | goCloseOnSignal (r : R)
  /-- The call `log.Println(...)`. -/
  | println (e : LogEntry)
  /-- The `for` loop; it leaves only by `return`. -/
  | loop
deriving DecidableEq, Repr

/-- What a run of `main` does, in order. -/
inductive Event (R : Type) where
  /-- A setup call succeeded. -/
  | done (c : SetupCall R)
  /-- A setup call failed and `log.Fatal(f)` wrote its message. -/
  | fatal (c : SetupCall R)
  /-- A deferred `r.Close()` ran. -/
  | closed (r : R)
  /-- The signal goroutine ran its `r.Close()`. -/
  | signalClosed (r : R)
  /-- A log line. -/
  | log (e : LogEntry)
  /-- The process ended with this status. -/
  | exit (code : Nat)
deriving DecidableEq, Repr

/-- Returning from `main`: the deferred calls run, last registered first
(`defers` holds the most recent registration at its head), and the process
ends with status 0. -/
def returnFromMain {R : Type} (defers : List R) : List (Event R) :=
  defers.map Event.closed ++ [Event.exit 0]

/-- The events of the consumption loop: its log lines, with the `Close` calls
of the signal goroutines (on the resources `watched`) placed right before the
line logged on the closed condition, which those calls bring about. -/
def loopEvents {R : Type} (watched : List R) : List LogEntry → List (Event R)
  | [] => []
  | .exiting :: rest =>
    watched.map Event.signalClosed ++ Event.log .exiting :: loopEvents watched rest
  | e :: rest => Event.log e :: loopEvents watched rest

/-- Execution of the statements of `main`. `fails c` tells whether setup call
`c` returns an error, `loopRes` is the outcome of the consumption loop,
`defers` the stack of registered deferred calls and `watched` the resources
that started goroutines close on a signal. -/
def exec {R : Type} (fails : SetupCall R → Bool) (loopRes : LoopResult) :
    List (Stmt R) → List R → List R → List (Event R)
  | [], defers, _ => returnFromMain defers
  | .attempt c :: k, defers, watched =>
    if fails c then [Event.fatal c, Event.exit 1]
    else Event.done c :: exec fails loopRes k defers watched
  | .deferClose r :: k, defers, watched => exec fails loopRes k (r :: defers) watched
  | .goCloseOnSignal r :: k, defers, watched => exec fails loopRes k defers (watched ++ [r])
  | .println e :: k, defers, watched => Event.log e :: exec fails loopRes k defers watched
  | .loop :: _, defers, watched =>
    loopEvents watched loopRes.log ++ (if loopRes.returned then returnFromMain defers else [])

/-- The body of `main` in `hello_go/main.go` (lines 34-139). -/
def helloGoMain : List (Stmt GoRes) :=
  [ .attempt .RemoveMemlock,
    .attempt (.acquire .events), .deferClose .events,
    .attempt (.acquire .rd), .deferClose .rd,
    .goCloseOnSignal .rd,
    .attempt (.acquire .prog), .deferClose .prog,
    .attempt (.acquire .tp), .deferClose .tp,
    .println .waiting,
    .loop ]

/-- The body of `main` in `hello_c/main.go` (lines 33-95). -/
def helloCMain : List (Stmt CRes) :=
  [ .attempt .RemoveMemlock,
    .attempt (.acquire .objs), .deferClose .objs,
    .attempt (.acquire .kp), .deferClose .kp,
    .attempt (.acquire .rd), .deferClose .rd,
    .goCloseOnSignal .rd,
    .println .waiting,
    .loop ]

/-- A run of `hello_go`: `fails` decides the setup calls, `reads` are the
results returned by the successive `rd.Read()` calls. -/
def helloGoRun (fails : SetupCall GoRes → Bool) (reads : List ReadResult) : List (Event GoRes) :=
  exec fails (helloGoLoop reads) helloGoMain [] []

/-- A run of `hello_c`. -/
def helloCRun (fails : SetupCall CRes → Bool) (reads : List ReadResult) : List (Event CRes) :=
  exec fails (helloCLoop eventData.zero reads) helloCMain [] []

/-- The setup calls that succeeded in a run, in order. -/
def setupDone {R : Type} : List (Event R) → List (SetupCall R)
  | [] => []
  | .done c :: rest => c :: setupDone rest
  | _ :: rest => setupDone rest

/-- The resources acquired in a run, in order. -/
def acquired {R : Type} : List (Event R) → List R
  | [] => []
  | .done (.acquire r) :: rest => r :: acquired rest
  | _ :: rest => acquired rest

/-- The resources on which `Close` was called in a run, in order, by a
deferred call or by the signal goroutine. -/
def released {R : Type} : List (Event R) → List R
  | [] => []
  | .closed r :: rest => r :: released rest
  | .signalClosed r :: rest => r :: released rest
  | _ :: rest => released rest

/-- The resources on which a deferred `Close` ran, in order. -/
def deferredCloses {R : Type} : List (Event R) → List R
  | [] => []
  | .closed r :: rest => r :: deferredCloses rest
  | _ :: rest => deferredCloses rest

/-- A list without the repetitions of its elements: each at its first
occurrence. -/
def firstOccurrences {R : Type} [DecidableEq R] : List R → List R
  | [] => []
  | r :: rest => r :: (firstOccurrences rest).filter (fun x => x ≠ r)

/-- The order in which the resources are released in a run: a resource is
released by the first `Close` called on it, a later `Close` finds it closed. -/
def releaseOrder {R : Type} [DecidableEq R] (run : List (Event R)) : List R :=
  firstOccurrences (released run)

/-- The exit status of a run, if the process ended. -/
def exitCode {R : Type} : List (Event R) → Option Nat
  | [] => none
  | .exit code :: _ => some code
  | _ :: rest => exitCode rest

/-- The four kinds of setup step named by the lifecycle description. -/
inductive StepKind where
  | limit
  | load
  | reader
  | hook
deriving DecidableEq, Repr

/-- Kind of each setup call of `hello_go`: `ebpf.NewMap` and `ebpf.NewProgram`
load objects, `perf.NewReader` opens the buffer reader,
`link.AttachRawTracepoint` attaches the hook. -/
def goKind : SetupCall GoRes → StepKind
  | .RemoveMemlock => .limit
  | .acquire .events => .load
  | .acquire .rd => .reader
  | .acquire .prog => .load
  | .acquire .tp => .hook

/-- Kind of each setup call of `hello_c`: `loadBpfObjects` loads the objects,
`link.Kprobe` attaches the hook, `ringbuf.NewReader` opens the buffer
reader. -/
def cKind : SetupCall CRes → StepKind
  | .RemoveMemlock => .limit
  | .acquire .objs => .load
  | .acquire .kp => .hook
  | .acquire .rd => .reader

/-- No setup call fails. -/
def noFailure {R : Type} : SetupCall R → Bool := fun _ => false

/-- Only the call that opens the buffer reader of `hello_c` fails. -/
def readerFails : SetupCall CRes → Bool
  | .acquire .rd => true
  | _ => false

/-- A read error carrying the closed condition. -/
def closedErr : ReadErr := { isClosed := true, msg := "file already closed" }

/-- A read error that is not the closed condition. -/
def otherErr : ReadErr := { isClosed := false, msg := "unknown event" }

/-! ## The instruction sequence assembled in `hello_go`

The package `asm` is not among the sources at hand; its instruction type and
its label resolution are modelled from the specification. The instruction
list itself is the one written in `hello_go/main.go` (lines 64-103). -/

/-- Modelled from the spec: the symbolic registers of package `asm`, among
them the frame-pointer register `RFP` (register 10). -/
inductive Register where
  | R0 | R1 | R2 | R3 | R4 | R5 | R6 | R7 | R8 | R9 | RFP
deriving DecidableEq, Repr

/-- Modelled from the spec: the operand sizes of package `asm`. -/
inductive Size where
  | Byte | Half | Word | DWord
deriving DecidableEq, Repr

/-- Number of bytes of an operand size. -/
def Size.Sizeof : Size → Nat
  | .Byte => 1
  | .Half => 2
  | .Word => 4
  | .DWord => 8

/-- Modelled from the spec: the helper functions of the execution engine that
`hello_go` calls. -/
inductive BuiltinFunc where
  | FnGetCurrentUidGid
  | FnGetCurrentPidTgid
  | FnGetCurrentComm
  | FnPerfEventOutput
deriving DecidableEq, Repr

/-- Modelled from the spec: a jump target is a symbolic label before
resolution and a signed relative offset after it. -/
inductive JumpTarget where
  | symbolic (name : String)
  | offset (off : Int)
deriving DecidableEq, Repr

/-- Modelled from the spec: the instruction forms of package `asm` that
`hello_go` uses, with their operands. -/
inductive Op where
  | MovReg (dst src : Register)
  | MovImm (dst : Register) (value : Int)
  | AddImm (dst : Register) (value : Int)
  | LoadMem (dst src : Register) (offset : Int) (size : Size)
  | StoreMem (dst : Register) (offset : Int) (src : Register) (size : Size)
  | JNEImm (dst : Register) (value : Int) (target : JumpTarget)
  | Call (fn : BuiltinFunc)
  | LoadMapPtr (dst : Register) (fd : Int)
  | LoadImm (dst : Register) (value : Int) (size : Size)
  | Return
deriving DecidableEq, Repr

/-- Modelled from the spec: an instruction of package `asm`, an operation and
the label marked on it, if any. -/
structure Instruction where
  op : Op
  symbol : Option String
deriving DecidableEq, Repr

/-- Modelled from the spec: `ins.Sym(name)` marks label `name` on `ins`. -/
def Instruction.Sym (ins : Instruction) (name : String) : Instruction :=
  { ins with symbol := some name }

/-- Modelled from the spec: `asm.Mov.Reg(dst, src)`. -/
def asm.Mov.Reg (dst src : Register) : Instruction := ⟨.MovReg dst src, none⟩

/-- Modelled from the spec: `asm.Mov.Imm(dst, value)`. -/
def asm.Mov.Imm (dst : Register) (value : Int) : Instruction := ⟨.MovImm dst value, none⟩

/-- Modelled from the spec: `asm.Add.Imm(dst, value)`. -/
def asm.Add.Imm (dst : Register) (value : Int) : Instruction := ⟨.AddImm dst value, none⟩

/-- Modelled from the spec: `asm.LoadMem(dst, src, offset, size)`. -/
def asm.LoadMem (dst src : Register) (offset : Int) (size : Size) : Instruction :=
  ⟨.LoadMem dst src offset size, none⟩

/-- Modelled from the spec: `asm.StoreMem(dst, offset, src, size)`. -/
def asm.StoreMem (dst : Register) (offset : Int) (src : Register) (size : Size) : Instruction :=
  ⟨.StoreMem dst offset src size, none⟩

/-- Modelled from the spec: `asm.JNE.Imm(dst, value, label)`, a conditional
jump to a symbolic label. -/
def asm.JNE.Imm (dst : Register) (value : Int) (target : String) : Instruction :=
  ⟨.JNEImm dst value (.symbolic target), none⟩

/-- Modelled from the spec: `fn.Call()`. -/
def BuiltinFunc.Call (fn : BuiltinFunc) : Instruction := ⟨.Call fn, none⟩

/-- Modelled from the spec: `asm.LoadMapPtr(dst, fd)`, a 64-bit immediate load
of a map reference. -/
def asm.LoadMapPtr (dst : Register) (fd : Int) : Instruction := ⟨.LoadMapPtr dst fd, none⟩

/-- Modelled from the spec: `asm.LoadImm(dst, value, size)`. -/
def asm.LoadImm (dst : Register) (value : Int) (size : Size) : Instruction :=
  ⟨.LoadImm dst value size, none⟩

/-- Modelled from the spec: `asm.Return()`. -/
def asm.Return : Instruction := ⟨.Return, none⟩

/-- The value of `asm.Instructions{...}` in `hello_go/main.go` (lines 64-103);
`fd` is the value of `events.FD()`. -/
def helloGoInstructions (fd : Int) : List Instruction :=
  [ asm.Mov.Reg .R7 .R1,
    asm.LoadMem .R6 .R1 8 .Word,
    asm.JNE.Imm .R6 59 "exit",
    BuiltinFunc.FnGetCurrentUidGid.Call,
    asm.StoreMem .RFP (-24) .R0 .Word,
    BuiltinFunc.FnGetCurrentPidTgid.Call,
    asm.StoreMem .RFP (-20) .R0 .Word,
    asm.Mov.Reg .R1 .RFP,
    asm.Add.Imm .R1 (-16),
    asm.Mov.Imm .R2 16,
    BuiltinFunc.FnGetCurrentComm.Call,
    asm.Mov.Reg .R1 .R7,
    asm.LoadMapPtr .R2 fd,
    asm.LoadImm .R3 0xffffffff .DWord,
    asm.Mov.Reg .R4 .RFP,
    asm.Add.Imm .R4 (-24),
    asm.Mov.Imm .R5 24,
    BuiltinFunc.FnPerfEventOutput.Call,
    asm.Mov.Imm .R0 0,
    asm.Return,
    (asm.Mov.Imm .R0 0).Sym "exit",
    asm.Return ]

/-- Modelled from the spec: the number of instruction units of the execution
engine an instruction occupies, two for a 64-bit immediate load (`LoadMapPtr`,
`LoadImm` with size `DWord`) and one otherwise. -/
def Instruction.units (ins : Instruction) : Nat :=
  match ins.op with
  | .LoadMapPtr _ _ => 2
  | .LoadImm _ _ .DWord => 2
  | _ => 1

/-- Position, in instruction units, of the instruction at list index `i`. -/
def unitPos (insns : List Instruction) (i : Nat) : Nat :=
  ((insns.take i).map Instruction.units).sum

/-- List indices and names of the labels marked in a sequence. -/
def markedAt : List Instruction → Nat → List (Nat × String)
  | [], _ => []
  | ins :: rest, i =>
    match ins.symbol with
    | some name => (i, name) :: markedAt rest (i + 1)
    | none => markedAt rest (i + 1)

/-- List indices and names of the labels referenced by jumps in a sequence. -/
def referencedAt : List Instruction → Nat → List (Nat × String)
  | [], _ => []
  | ins :: rest, i =>
    match ins.op with
    | .JNEImm _ _ (.symbolic name) => (i, name) :: referencedAt rest (i + 1)
    | _ => referencedAt rest (i + 1)

/-- Modelled from the spec: the two failures of label resolution. -/
inductive AssemblyError where
  | UnresolvedLabelError (name : String)
  | DuplicateLabelError (name : String)
deriving DecidableEq, Repr

/-- Modelled from the spec: the table of labels of a sequence, each bound to
the position (in instruction units, starting at `pos`) of the instruction that
carries it; a name marked twice is a `DuplicateLabelError`. -/
def symbolTable : List Instruction → Nat → Except AssemblyError (List (String × Nat))
  | [], _ => .ok []
  | ins :: rest, pos =>
    match symbolTable rest (pos + ins.units) with
    | .error e => .error e
    | .ok table =>
      match ins.symbol with
      | none => .ok table
      | some name =>
        if (table.lookup name).isSome then .error (.DuplicateLabelError name)
        else .ok ((name, pos) :: table)

/-- Modelled from the spec: the pass that replaces every symbolic jump target
by the signed relative offset between the jump and its target, counted from
the unit after the jump (post-increment program counter), and drops the
labels; a jump to a name missing from the table is an
`UnresolvedLabelError`. -/
def patch (table : List (String × Nat)) : List Instruction → Nat → Except AssemblyError (List Instruction)
  | [], _ => .ok []
  | ins :: rest, pos =>
    match ins.op with
    | .JNEImm dst value (.symbolic name) =>
      match table.lookup name with
      | none => .error (.UnresolvedLabelError name)
      | some target =>
        match patch table rest (pos + ins.units) with
        | .error e => .error e
        | .ok out =>
          .ok (⟨.JNEImm dst value (.offset ((target : Int) - (pos : Int) - 1)), none⟩ :: out)
    | op =>
      match patch table rest (pos + ins.units) with
      | .error e => .error e
      | .ok out => .ok (⟨op, none⟩ :: out)

/-- Modelled from the spec: `resolve()`, the conversion of a sequence with
symbolic labels into the final instruction stream. -/
def resolve (insns : List Instruction) : Except AssemblyError (List Instruction) :=
  match symbolTable insns 0 with
  | .error e => .error e
  | .ok table => patch table insns 0

/-- The relative offset of the jump at list index `i` of a resolved stream. -/
def jumpOffset (insns : List Instruction) (i : Nat) : Option Int :=
  match insns.get? i with
  | some ⟨.JNEImm _ _ (.offset off), _⟩ => some off
  | _ => none

/-! ## Abstract execution of the emitting path

The execution engine is external. To read off where the assembled program
puts the fields of the record, its straight-line path (the jump at index 2
not taken) is run over symbolic values with the register
conventions: `R1` holds the context on entry, `RFP` the frame pointer, a
helper call takes its arguments in `R1`..`R5`, returns in `R0` and clobbers
`R1`..`R5`. -/

/-- A symbolic register value. -/
inductive Val where
  | unknown
  | ctx
  | fp (off : Int)
  | imm (v : Int)
  | ret (fn : BuiltinFunc)
  | mapPtr (fd : Int)
deriving DecidableEq, Repr

/-- A store to the stack frame: offset from the frame pointer, width, value. -/
structure StackStore where
  off : Int
  size : Size
  value : Val
deriving DecidableEq, Repr

/-- A helper call with the values of its five argument registers. -/
structure HelperCall where
  fn : BuiltinFunc
  a1 : Val
  a2 : Val
  a3 : Val
  a4 : Val
  a5 : Val
deriving DecidableEq, Repr

/-- State of the abstract execution. -/
structure Machine where
  regs : Register → Val
  stores : List StackStore
  calls : List HelperCall
  halted : Bool

/-- State on entry of the program. -/
def Machine.init : Machine :=
  { regs := fun r => match r with
      | .R1 => .ctx
      | .RFP => .fp 0
      | _ => .unknown
    stores := []
    calls := []
    halted := false }

/-- Register update. -/
def setReg (regs : Register → Val) (r : Register) (v : Val) : Register → Val :=
  fun x => if x = r then v else regs x

/-- Addition of an immediate to a symbolic value. -/
def Val.add : Val → Int → Val
  | .fp off, k => .fp (off + k)
  | .imm v, k => .imm (v + k)
  | _, _ => .unknown

/-- One instruction of the emitting path. A conditional jump falls through. -/
def step (m : Machine) (ins : Instruction) : Machine :=
  if m.halted then m
  else
    match ins.op with
    | .MovReg dst src => { m with regs := setReg m.regs dst (m.regs src) }
    | .MovImm dst v => { m with regs := setReg m.regs dst (.imm v) }
    | .AddImm dst v => { m with regs := setReg m.regs dst ((m.regs dst).add v) }
    | .LoadMem dst _ _ _ => { m with regs := setReg m.regs dst .unknown }
    | .StoreMem dst off src size =>
      match m.regs dst with
      | .fp base => { m with stores := m.stores ++ [⟨base + off, size, m.regs src⟩] }
      | _ => m
    | .JNEImm _ _ _ => m
    | .Call fn =>
      let call : HelperCall :=
        ⟨fn, m.regs .R1, m.regs .R2, m.regs .R3, m.regs .R4, m.regs .R5⟩
      let regs := setReg m.regs .R0 (.ret fn)
      let regs := setReg regs .R1 .unknown
      let regs := setReg regs .R2 .unknown
      let regs := setReg regs .R3 .unknown
      let regs := setReg regs .R4 .unknown
      let regs := setReg regs .R5 .unknown
      { m with regs := regs, calls := m.calls ++ [call] }
    | .LoadMapPtr dst fd => { m with regs := setReg m.regs dst (.mapPtr fd) }
    | .LoadImm dst v _ => { m with regs := setReg m.regs dst (.imm v) }
    | .Return => { m with halted := true }

/-- The emitting path of `hello_go`, run to its `Return`. -/
def emitPath (fd : Int) : Machine :=
  (helloGoInstructions fd).foldl step Machine.init

/-- A field of the emitted record: offset from the start of the data and
length in bytes. -/
structure Field where
  off : Int
  len : Int
deriving DecidableEq, Repr

/-- The field a stack store writes, relative to data pointer `fp + base`. -/
def StackStore.field (base : Int) (s : StackStore) : Field :=
  ⟨s.off - base, s.size.Sizeof⟩

/-- The fields the decoder reads: `Uid` (4 bytes), `Pid` (4 bytes) and `Comm`
(16 bytes), laid out one after the other from offset 0. -/
def decoderFields : List Field := [⟨0, 4⟩, ⟨4, 4⟩, ⟨8, 16⟩]

/-! ## Helper definitions for the statements -/

/-- Whether `binary.Read` accepts the raw sample of a record. -/
def decodes (raw : List Byte) : Bool :=
  (binary.Read raw eventData.zero).1.isNone

/-- The event `hello_go` reports for a record that decodes. -/
def goReport (raw : List Byte) : Nat × Nat × List Byte :=
  let data := (binary.Read raw eventData.zero).2
  (data.Uid, data.Pid, TrimRightNul data.Comm)

/-- The event `hello_c` reports for a record that decodes. -/
def cReport (raw : List Byte) : Nat × Nat × List Byte :=
  let data := (binary.Read raw eventData.zero).2
  (data.Uid, data.Pid, ByteSliceToString data.Comm)

/-- Whether a read result is an error carrying the closed condition. -/
def ReadResult.isClosed : ReadResult → Bool
  | .fault err => err.isClosed
  | .record _ => false

/-- Only the call that loads the program of `hello_go` fails. -/
def progFails : SetupCall GoRes → Bool
  | .acquire .prog => true
  | _ => false

/-- The setup calls of `hello_c` in the order `main` makes them. -/
def helloCSetup : List (SetupCall CRes) :=
  [.RemoveMemlock, .acquire .objs, .acquire .kp, .acquire .rd]

/-- The setup calls of `hello_go` in the order `main` makes them. -/
def helloGoSetup : List (SetupCall GoRes) :=
  [.RemoveMemlock, .acquire .events, .acquire .rd, .acquire .prog, .acquire .tp]

/-- The acquisition order the lifecycle description states. -/
def statedOrder : List StepKind := [.limit, .load, .reader, .hook]

/-- The fields of the record the emitting path hands to the emit helper, with
the size it passes: the stack stores and the name buffer given to the get-name
helper, relative to the data pointer given to the emit helper. -/
def emittedRecord (m : Machine) : Option (List Field × Int) :=
  match m.calls.find? (fun c => c.fn = .FnPerfEventOutput),
      m.calls.find? (fun c => c.fn = .FnGetCurrentComm) with
  | some ⟨_, _, _, _, .fp base, .imm size⟩, some ⟨_, .fp buf, .imm len, _, _, _⟩ =>
    some (m.stores.map (StackStore.field base) ++ [⟨buf - base, len⟩], size)
  | _, _ => none

/-- Whether the fields lie one after the other, without gap or overlap, from
`start` to `stop`. -/
def tiles : List Field → Int → Int → Bool
  | [], start, stop => start = stop
  | f :: rest, start, stop => f.off = start && 0 < f.len && tiles rest (start + f.len) stop

/-! ## Lemmas -/

theorem u32_of_lt {n : Nat} (h : n < 2 ^ 32) : u32 n = n := Nat.mod_eq_of_lt h

theorem uint32_bytes (a b c d : Nat) (ha : a < 256) (hb : b < 256) (hc : c < 256)
    (hd : d < 256) :
    u32 (u32 (u32 a ||| u32 (b <<< 8)) ||| u32 (c <<< 16)) ||| u32 (d <<< 24)
      = a + b * 2 ^ 8 + c * 2 ^ 16 + d * 2 ^ 24 := by
  have s1 : b <<< 8 = 2 ^ 8 * b := by rw [Nat.shiftLeft_eq, Nat.mul_comm]
  have s2 : c <<< 16 = 2 ^ 16 * c := by rw [Nat.shiftLeft_eq, Nat.mul_comm]
  have s3 : d <<< 24 = 2 ^ 24 * d := by rw [Nat.shiftLeft_eq, Nat.mul_comm]
  have e1 : a ||| 2 ^ 8 * b = 2 ^ 8 * b + a := by
    rw [Nat.lor_comm]; exact (Nat.mul_add_lt_is_or (by omega) b).symm
  have e2 : (2 ^ 8 * b + a) ||| 2 ^ 16 * c = 2 ^ 16 * c + (2 ^ 8 * b + a) := by
    rw [Nat.lor_comm]; exact (Nat.mul_add_lt_is_or (by omega) c).symm
  have e3 : (2 ^ 16 * c + (2 ^ 8 * b + a)) ||| 2 ^ 24 * d
      = 2 ^ 24 * d + (2 ^ 16 * c + (2 ^ 8 * b + a)) := by
    rw [Nat.lor_comm]; exact (Nat.mul_add_lt_is_or (by omega) d).symm
  rw [s1, s2, s3, u32_of_lt (n := a) (by omega), u32_of_lt (n := 2 ^ 8 * b) (by omega), e1,
    u32_of_lt (n := 2 ^ 8 * b + a) (by omega), u32_of_lt (n := 2 ^ 16 * c) (by omega), e2,
    u32_of_lt (n := 2 ^ 16 * c + (2 ^ 8 * b + a)) (by omega),
    u32_of_lt (n := 2 ^ 24 * d) (by omega), e3]
  omega

theorem Uint32_eq (b : List Byte) :
    LittleEndian.Uint32 b
      = (b.getD 0 0).val + (b.getD 1 0).val * 2 ^ 8 + (b.getD 2 0).val * 2 ^ 16
        + (b.getD 3 0).val * 2 ^ 24 :=
  uint32_bytes _ _ _ _ (b.getD 0 0).isLt (b.getD 1 0).isLt (b.getD 2 0).isLt (b.getD 3 0).isLt

theorem getD_take {i n : Nat} (b : List Byte) (h : i < n) : (b.take n).getD i 0 = b.getD i 0 := by
  simp [List.getD_eq_getElem?_getD, List.getElem?_take, h]

theorem getD_drop (i n : Nat) (b : List Byte) : (b.drop n).getD i 0 = b.getD (n + i) 0 := by
  simp [List.getD_eq_getElem?_getD]

theorem ReadFull_ok (raw : List Byte) (n : Nat) (hn : 0 < n) (h : n ≤ raw.length) :
    ReadFull raw n = (raw.take n, none) := by
  obtain ⟨m, rfl⟩ : ∃ m, n = m + 1 := ⟨n - 1, by omega⟩
  have h0 : ¬ (raw.length ≤ 0) := by omega
  have hl : (raw.take (m + 1)).length = m + 1 := by
    rw [List.length_take]; omega
  cases m with
  | zero =>
    simp [ReadFull, ReadAtLeastLoop, Reader.Read, h0, hl]
  | succ k =>
    simp [ReadFull, ReadAtLeastLoop, Reader.Read, h0, hl]

theorem ReadFull_short (raw : List Byte) (n : Nat) (h : raw.length < n) :
    ReadFull raw n = (raw, some (if raw.length = 0 then .EOF else .ErrUnexpectedEOF)) := by
  obtain ⟨m, rfl⟩ : ∃ m, n = m + 1 := ⟨n - 1, by omega⟩
  by_cases h0 : raw.length = 0
  · have hr : raw = [] := List.length_eq_zero.mp h0
    subst hr
    cases m <;> simp [ReadFull, ReadAtLeastLoop, Reader.Read]
  · have h1 : ¬ (raw.length ≤ 0) := by omega
    have ht : raw.take (m + 1) = raw := List.take_of_length_le (by omega)
    have hm : ¬ (m + 1 ≤ raw.length) := by omega
    obtain ⟨k, rfl⟩ : ∃ k, m = k + 1 := ⟨m - 1, by omega⟩
    have hpos : 0 < raw.length := by omega
    simp [ReadFull, ReadAtLeastLoop, Reader.Read, h0, h1, ht, hm, h, hpos]

theorem Read_ok (raw : List Byte) (data : eventData) (h : 24 ≤ raw.length) :
    binary.Read raw data = (none, decodeValue (raw.take 24)) := by
  simp [binary.Read, dataSize, ReadFull_ok raw 24 (by decide) h]

theorem Read_short (raw : List Byte) (data : eventData) (h : raw.length < 24) :
    binary.Read raw data
      = (some (if raw.length = 0 then .EOF else .ErrUnexpectedEOF), data) := by
  simp [binary.Read, dataSize, ReadFull_short raw 24 h]

theorem decodeValue_take (raw : List Byte) :
    decodeValue (raw.take 24)
      = { Uid := (raw.getD 0 0).val + (raw.getD 1 0).val * 2 ^ 8 + (raw.getD 2 0).val * 2 ^ 16
            + (raw.getD 3 0).val * 2 ^ 24
          Pid := (raw.getD 4 0).val + (raw.getD 5 0).val * 2 ^ 8 + (raw.getD 6 0).val * 2 ^ 16
            + (raw.getD 7 0).val * 2 ^ 24
          Comm := (raw.drop 8).take 16 } := by
  simp only [decodeValue, Uint32_eq]
  congr 1
  · simp [getD_take, List.take_take]
  · simp [getD_take, getD_drop, List.take_take, List.take_drop]
  · simp [List.take_take, List.take_drop]
theorem IndexByte_ge (s : List Byte) (c : Byte) : IndexByte s c = -1 ∨ 0 ≤ IndexByte s c := by
  induction s with
  | nil => left; rfl
  | cons b rest ih =>
    simp only [IndexByte]
    split
    · right; omega
    · split
      · left; rfl
      · right; omega

theorem ByteSliceToString_eq (s : List Byte) : ByteSliceToString s = untilFirstNul s := by
  induction s with
  | nil => simp [ByteSliceToString, untilFirstNul, IndexByte]
  | cons b rest ih =>
    by_cases hb : b = 0
    · simp [ByteSliceToString, untilFirstNul, IndexByte, hb]
    · rcases IndexByte_ge rest 0 with h | h
      · have ih1 : rest = untilFirstNul rest := by
          simpa [ByteSliceToString, h] using ih
        simp only [ByteSliceToString, IndexByte, hb, h, untilFirstNul, if_false, if_true,
          ne_eq, not_true_eq_false, List.takeWhile_cons, decide_not, decide_False, Bool.not_false]
        simp only [untilFirstNul, ne_eq, decide_not] at ih1
        rw [← ih1]
      · have hne : IndexByte rest 0 ≠ -1 := by omega
        have hne1 : IndexByte rest 0 + 1 ≠ -1 := by omega
        have ih1 : rest.take (IndexByte rest 0).toNat = untilFirstNul rest := by
          simpa [ByteSliceToString, hne] using ih
        have ht : (IndexByte rest 0 + 1).toNat = (IndexByte rest 0).toNat + 1 := by omega
        simp only [ByteSliceToString, IndexByte, hb, hne, hne1, untilFirstNul, if_false, if_true,
          ne_eq, not_false_eq_true, List.takeWhile_cons, decide_not, decide_False, Bool.not_false,
          ht, List.take_succ_cons]
        simp only [untilFirstNul, ne_eq, decide_not] at ih1
        rw [ih1]

theorem trimRightByteLoop_stop (fuel : Nat) (s : List Byte) (c : Byte)
    (h : s.getLast? ≠ some c) : trimRightByteLoop fuel s c = s := by
  cases fuel with
  | zero => rfl
  | succ f => simp [trimRightByteLoop, h]

theorem trimRightByteLoop_padding (n : Nat) : ∀ (fuel : Nat) (s : List Byte) (c : Byte),
    n ≤ fuel → s.getLast? ≠ some c →
    trimRightByteLoop fuel (s ++ List.replicate n c) c = s := by
  induction n with
  | zero =>
    intro fuel s c _ h
    simpa using trimRightByteLoop_stop fuel s c h
  | succ n ih =>
    intro fuel s c hf h
    obtain ⟨f, rfl⟩ : ∃ f, fuel = f + 1 := ⟨fuel - 1, by omega⟩
    have e : s ++ List.replicate (n + 1) c = (s ++ List.replicate n c) ++ [c] := by
      rw [List.replicate_succ', List.append_assoc]
    rw [e, trimRightByteLoop]
    have hl : ((s ++ List.replicate n c) ++ [c]).getLast? = some c := by simp
    have hd : ((s ++ List.replicate n c) ++ [c]).dropLast = s ++ List.replicate n c := by simp
    rw [if_pos ⟨by simp, hl⟩, hd]
    exact ih f s c (by omega) h

theorem TrimRightNul_padded (p : List Byte) (n : Nat) (h : p.getLast? ≠ some 0) :
    TrimRightNul (p ++ List.replicate n 0) = p := by
  unfold TrimRightNul trimRightByte
  exact trimRightByteLoop_padding n _ p 0 (by simp) h

theorem untilFirstNul_padded (p : List Byte) (n : Nat) (h : ∀ b ∈ p, b ≠ 0) :
    untilFirstNul (p ++ List.replicate n 0) = p := by
  induction p with
  | nil => cases n <;> simp [untilFirstNul, List.replicate_succ]
  | cons b rest ih =>
    have hb : b ≠ 0 := h b (by simp)
    have ih1 := ih (fun x hx => h x (by simp [hx]))
    simp only [untilFirstNul, ne_eq, decide_not] at ih1 ⊢
    simp [List.takeWhile_cons, hb, ih1]

theorem helloGoLoop_record (raw : List Byte) (rest : List ReadResult) :
    (helloGoLoop (.record raw :: rest)).log
        = (if decodes raw then
            .event (goReport raw).1 (goReport raw).2.1 (goReport raw).2.2
          else .parsingFault (if raw.length = 0 then .EOF else .ErrUnexpectedEOF))
          :: (helloGoLoop rest).log
      ∧ (helloGoLoop (.record raw :: rest)).returned = (helloGoLoop rest).returned
      ∧ (helloGoLoop (.record raw :: rest)).unread = (helloGoLoop rest).unread := by
  by_cases h : 24 ≤ raw.length
  · simp [helloGoLoop, decodes, goReport, Read_ok raw _ h]
  · have h1 : raw.length < 24 := by omega
    simp [helloGoLoop, decodes, goReport, Read_short raw _ h1]

theorem helloCLoop_record (event : eventData) (raw : List Byte) (rest : List ReadResult) :
    (helloCLoop event (.record raw :: rest)).log
        = (if decodes raw then
            .event (cReport raw).1 (cReport raw).2.1 (cReport raw).2.2
          else .parsingFault (if raw.length = 0 then .EOF else .ErrUnexpectedEOF))
          :: (helloCLoop (if decodes raw then (binary.Read raw eventData.zero).2 else event) rest).log
      ∧ (helloCLoop event (.record raw :: rest)).returned
          = (helloCLoop (if decodes raw then (binary.Read raw eventData.zero).2 else event) rest).returned
      ∧ (helloCLoop event (.record raw :: rest)).unread
          = (helloCLoop (if decodes raw then (binary.Read raw eventData.zero).2 else event) rest).unread := by
  by_cases h : 24 ≤ raw.length
  · simp [helloCLoop, decodes, cReport, Read_ok raw _ h]
  · have h1 : raw.length < 24 := by omega
    simp [helloCLoop, decodes, cReport, Read_short raw _ h1]

theorem helloGoLoop_records (rs : List (List Byte)) :
    (helloGoLoop (rs.map .record)).log
        = rs.map (fun raw =>
            if decodes raw then
              LogEntry.event (goReport raw).1 (goReport raw).2.1 (goReport raw).2.2
            else .parsingFault (if raw.length = 0 then .EOF else .ErrUnexpectedEOF)) := by
  induction rs with
  | nil => rfl
  | cons raw rest ih =>
    rw [List.map_cons, (helloGoLoop_record raw _).1, ih, List.map_cons]

theorem helloCLoop_records (rs : List (List Byte)) : ∀ event : eventData,
    (helloCLoop event (rs.map .record)).log
        = rs.map (fun raw =>
            if decodes raw then
              LogEntry.event (cReport raw).1 (cReport raw).2.1 (cReport raw).2.2
            else .parsingFault (if raw.length = 0 then .EOF else .ErrUnexpectedEOF)) := by
  induction rs with
  | nil => intro _; rfl
  | cons raw rest ih =>
    intro event
    rw [List.map_cons, (helloCLoop_record event raw _).1, ih, List.map_cons]

theorem reportedEvents_map (f : List Byte → Nat × Nat × List Byte) (e : List Byte → ReadFullError)
    (rs : List (List Byte)) :
    reportedEvents (rs.map (fun raw =>
        if decodes raw then LogEntry.event (f raw).1 (f raw).2.1 (f raw).2.2
        else .parsingFault (e raw)))
      = (rs.filter decodes).map f := by
  induction rs with
  | nil => rfl
  | cons raw rest ih =>
    by_cases h : decodes raw = true
    · simp only [List.map_cons, h, if_true, reportedEvents, List.filter_cons_of_pos]
      rw [ih]
    · have hf : (raw :: rest).filter decodes = rest.filter decodes :=
        List.filter_cons_of_neg h
      simp only [List.map_cons, h, reportedEvents, hf]
      simpa using ih

theorem decodes_iff (raw : List Byte) : decodes raw = true ↔ 24 ≤ raw.length := by
  by_cases h : 24 ≤ raw.length
  · simp [decodes, Read_ok raw _ h, h]
  · have h1 : raw.length < 24 := by omega
    simp [decodes, Read_short raw _ h1, h]

theorem helloGoLoop_fault (e : ReadErr) (reads : List ReadResult) (h : e.isClosed = false) :
    (helloGoLoop (.fault e :: reads)).log = .readingFault e :: (helloGoLoop reads).log
      ∧ (helloGoLoop (.fault e :: reads)).returned = (helloGoLoop reads).returned
      ∧ (helloGoLoop (.fault e :: reads)).unread = (helloGoLoop reads).unread := by
  simp [helloGoLoop, h]

theorem helloCLoop_fault (event : eventData) (e : ReadErr) (reads : List ReadResult)
    (h : e.isClosed = false) :
    (helloCLoop event (.fault e :: reads)).log = .readingFault e :: (helloCLoop event reads).log
      ∧ (helloCLoop event (.fault e :: reads)).returned = (helloCLoop event reads).returned
      ∧ (helloCLoop event (.fault e :: reads)).unread = (helloCLoop event reads).unread := by
  simp [helloCLoop, h]

theorem helloGoLoop_closed (pre rest : List ReadResult) (err : ReadErr)
    (hpre : ∀ r ∈ pre, r.isClosed = false) (herr : err.isClosed = true) :
    (helloGoLoop (pre ++ .fault err :: rest)).returned = true
      ∧ (helloGoLoop (pre ++ .fault err :: rest)).unread = rest
      ∧ (helloGoLoop (pre ++ .fault err :: rest)).log = (helloGoLoop pre).log ++ [.exiting]
      ∧ (helloGoLoop pre).returned = false := by
  induction pre with
  | nil => simp [helloGoLoop, herr]
  | cons r pre ih =>
    have ih1 := ih (fun x hx => hpre x (List.mem_cons_of_mem _ hx))
    cases r with
    | fault e =>
      have he : e.isClosed = false := hpre (.fault e) (List.mem_cons_self _ _)
      have h1 := helloGoLoop_fault e (pre ++ .fault err :: rest) he
      have h2 := helloGoLoop_fault e pre he
      rw [List.cons_append, h1.1, h1.2.1, h1.2.2, h2.1, h2.2.1, ih1.1, ih1.2.1, ih1.2.2.1,
        ih1.2.2.2]
      simp
    | record raw =>
      have h1 := helloGoLoop_record raw (pre ++ .fault err :: rest)
      have h2 := helloGoLoop_record raw pre
      rw [List.cons_append, h1.1, h1.2.1, h1.2.2, h2.1, h2.2.1, ih1.1, ih1.2.1, ih1.2.2.1,
        ih1.2.2.2]
      simp

theorem helloCLoop_closed (pre rest : List ReadResult) (err : ReadErr)
    (hpre : ∀ r ∈ pre, r.isClosed = false) (herr : err.isClosed = true) :
    ∀ event : eventData,
    (helloCLoop event (pre ++ .fault err :: rest)).returned = true
      ∧ (helloCLoop event (pre ++ .fault err :: rest)).unread = rest
      ∧ (helloCLoop event (pre ++ .fault err :: rest)).log
          = (helloCLoop event pre).log ++ [.exiting]
      ∧ (helloCLoop event pre).returned = false := by
  induction pre with
  | nil => intro event; simp [helloCLoop, herr]
  | cons r pre ih =>
    intro event
    have ih1 := ih (fun x hx => hpre x (List.mem_cons_of_mem _ hx))
    cases r with
    | fault e =>
      have he : e.isClosed = false := hpre (.fault e) (List.mem_cons_self _ _)
      have h1 := helloCLoop_fault event e (pre ++ .fault err :: rest) he
      have h2 := helloCLoop_fault event e pre he
      have ih2 := ih1 event
      rw [List.cons_append, h1.1, h1.2.1, h1.2.2, h2.1, h2.2.1, ih2.1, ih2.2.1, ih2.2.2.1,
        ih2.2.2.2]
      simp
    | record raw =>
      have h1 := helloCLoop_record event raw (pre ++ .fault err :: rest)
      have h2 := helloCLoop_record event raw pre
      have ih2 := ih1 (if decodes raw then (binary.Read raw eventData.zero).2 else event)
      rw [List.cons_append, h1.1, h1.2.1, h1.2.2, h2.1, h2.2.1, ih2.1, ih2.2.1, ih2.2.2.1,
        ih2.2.2.2]
      simp

theorem loggedFaults_append_exiting (l : List LogEntry) :
    loggedFaults (l ++ [.exiting]) = loggedFaults l := by
  induction l with
  | nil => rfl
  | cons e l ih => cases e <;> simp [loggedFaults, ih]

theorem reportedEvents_append_exiting (l : List LogEntry) :
    reportedEvents (l ++ [.exiting]) = reportedEvents l := by
  induction l with
  | nil => rfl
  | cons e l ih => cases e <;> simp [reportedEvents, ih]

theorem setupDone_append {R : Type} (a b : List (Event R)) :
    setupDone (a ++ b) = setupDone a ++ setupDone b := by
  induction a with
  | nil => rfl
  | cons e a ih => cases e <;> simp [setupDone, ih]

theorem acquired_append {R : Type} (a b : List (Event R)) :
    acquired (a ++ b) = acquired a ++ acquired b := by
  induction a with
  | nil => rfl
  | cons e a ih =>
    cases e with
    | done c => cases c <;> simp [acquired, ih]
    | fatal c => simp [acquired, ih]
    | closed r => simp [acquired, ih]
    | signalClosed r => simp [acquired, ih]
    | log e => simp [acquired, ih]
    | exit code => simp [acquired, ih]

theorem released_append {R : Type} (a b : List (Event R)) :
    released (a ++ b) = released a ++ released b := by
  induction a with
  | nil => rfl
  | cons e a ih => cases e <;> simp [released, ih]

theorem deferredCloses_append {R : Type} (a b : List (Event R)) :
    deferredCloses (a ++ b) = deferredCloses a ++ deferredCloses b := by
  induction a with
  | nil => rfl
  | cons e a ih => cases e <;> simp [deferredCloses, ih]

theorem setupDone_signalClosed {R : Type} (w : List R) :
    setupDone (w.map Event.signalClosed) = [] := by
  induction w with
  | nil => rfl
  | cons r w ih => simpa [setupDone] using ih

theorem acquired_signalClosed {R : Type} (w : List R) :
    acquired (w.map Event.signalClosed) = [] := by
  induction w with
  | nil => rfl
  | cons r w ih => simpa [acquired] using ih

theorem deferredCloses_signalClosed {R : Type} (w : List R) :
    deferredCloses (w.map Event.signalClosed) = [] := by
  induction w with
  | nil => rfl
  | cons r w ih => simpa [deferredCloses] using ih

theorem released_signalClosed {R : Type} (w : List R) :
    released (w.map Event.signalClosed) = w := by
  induction w with
  | nil => rfl
  | cons r w ih => simpa [released] using ih

theorem setupDone_loopEvents {R : Type} (w : List R) (l : List LogEntry) :
    setupDone (loopEvents w l) = [] := by
  induction l with
  | nil => rfl
  | cons e l ih =>
    cases e <;>
      simp [loopEvents, setupDone, setupDone_append, setupDone_signalClosed, ih]

theorem acquired_loopEvents {R : Type} (w : List R) (l : List LogEntry) :
    acquired (loopEvents w l) = [] := by
  induction l with
  | nil => rfl
  | cons e l ih =>
    cases e <;>
      simp [loopEvents, acquired, acquired_append, acquired_signalClosed, ih]

theorem deferredCloses_loopEvents {R : Type} (w : List R) (l : List LogEntry) :
    deferredCloses (loopEvents w l) = [] := by
  induction l with
  | nil => rfl
  | cons e l ih =>
    cases e <;>
      simp [loopEvents, deferredCloses, deferredCloses_append, deferredCloses_signalClosed, ih]

theorem released_loopEvents_cons {R : Type} (w : List R) (e : LogEntry) (l : List LogEntry)
    (he : e ≠ .exiting) :
    released (loopEvents w (e :: l)) = released (loopEvents w l) := by
  cases e <;> simp [loopEvents, released] at he ⊢

theorem released_loopEvents_go {R : Type} (w : List R) (reads : List ReadResult) :
    released (loopEvents w (helloGoLoop reads).log)
      = if (helloGoLoop reads).returned then w else [] := by
  induction reads with
  | nil => simp [helloGoLoop, loopEvents, released]
  | cons r reads ih =>
    cases r with
    | fault e =>
      cases he : e.isClosed with
      | true =>
        simp [helloGoLoop, he, loopEvents, released_append, released_signalClosed, released]
      | false =>
        rw [(helloGoLoop_fault e reads he).1, (helloGoLoop_fault e reads he).2.1,
          released_loopEvents_cons w _ _ (by simp), ih]
    | record raw =>
      rw [(helloGoLoop_record raw reads).1, (helloGoLoop_record raw reads).2.1,
        released_loopEvents_cons w _ _ (by split <;> simp), ih]

theorem released_loopEvents_c {R : Type} (w : List R) (reads : List ReadResult) :
    ∀ event : eventData,
    released (loopEvents w (helloCLoop event reads).log)
      = if (helloCLoop event reads).returned then w else [] := by
  induction reads with
  | nil => intro _; simp [helloCLoop, loopEvents, released]
  | cons r reads ih =>
    intro event
    cases r with
    | fault e =>
      cases he : e.isClosed with
      | true =>
        simp [helloCLoop, he, loopEvents, released_append, released_signalClosed, released]
      | false =>
        rw [(helloCLoop_fault event e reads he).1, (helloCLoop_fault event e reads he).2.1,
          released_loopEvents_cons w _ _ (by simp), ih]
    | record raw =>
      rw [(helloCLoop_record event raw reads).1, (helloCLoop_record event raw reads).2.1,
        released_loopEvents_cons w _ _ (by split <;> simp), ih]

theorem helloGoLoop_returned_iff (reads : List ReadResult) :
    (helloGoLoop reads).returned = true ↔ ∃ r ∈ reads, r.isClosed = true := by
  induction reads with
  | nil => simp [helloGoLoop]
  | cons r reads ih =>
    cases r with
    | fault e =>
      cases he : e.isClosed with
      | true => simp [helloGoLoop, he, ReadResult.isClosed]
      | false => rw [(helloGoLoop_fault e reads he).2.1, ih]; simp [ReadResult.isClosed, he]
    | record raw =>
      rw [(helloGoLoop_record raw reads).2.1, ih]; simp [ReadResult.isClosed]

theorem helloCLoop_returned_iff (reads : List ReadResult) : ∀ event : eventData,
    (helloCLoop event reads).returned = true ↔ ∃ r ∈ reads, r.isClosed = true := by
  induction reads with
  | nil => intro _; simp [helloCLoop]
  | cons r reads ih =>
    intro event
    cases r with
    | fault e =>
      cases he : e.isClosed with
      | true => simp [helloCLoop, he, ReadResult.isClosed]
      | false => rw [(helloCLoop_fault event e reads he).2.1, ih]; simp [ReadResult.isClosed, he]
    | record raw =>
      rw [(helloCLoop_record event raw reads).2.1, ih]; simp [ReadResult.isClosed]

theorem helloCRun_cases (fails : SetupCall CRes → Bool) (reads : List ReadResult) :
    (fails .RemoveMemlock = true ∧
        helloCRun fails reads = [.fatal .RemoveMemlock, .exit 1])
      ∨ (fails (.acquire .objs) = true ∧
        helloCRun fails reads = [.done .RemoveMemlock, .fatal (.acquire .objs), .exit 1])
      ∨ (fails (.acquire .kp) = true ∧
        helloCRun fails reads
          = [.done .RemoveMemlock, .done (.acquire .objs), .fatal (.acquire .kp), .exit 1])
      ∨ (fails (.acquire .rd) = true ∧
        helloCRun fails reads
          = [.done .RemoveMemlock, .done (.acquire .objs), .done (.acquire .kp),
              .fatal (.acquire .rd), .exit 1])
      ∨ ((∀ c, fails c = false) ∧
        helloCRun fails reads
          = [.done .RemoveMemlock, .done (.acquire .objs), .done (.acquire .kp),
              .done (.acquire .rd), .log .waiting]
            ++ (loopEvents [.rd] (helloCLoop eventData.zero reads).log
              ++ (if (helloCLoop eventData.zero reads).returned
                  then returnFromMain [.rd, .kp, .objs] else []))) := by
  cases h0 : fails .RemoveMemlock
  · cases h1 : fails (.acquire .objs)
    · cases h2 : fails (.acquire .kp)
      · cases h3 : fails (.acquire .rd)
        · right; right; right; right
          refine ⟨?_, ?_⟩
          · intro c
            cases c with
            | RemoveMemlock => exact h0
            | acquire r => cases r <;> assumption
          · simp [helloCRun, helloCMain, exec, h0, h1, h2, h3]
        · right; right; right; left
          simp [helloCRun, helloCMain, exec, h0, h1, h2, h3]
      · right; right; left
        simp [helloCRun, helloCMain, exec, h0, h1, h2]
    · right; left
      simp [helloCRun, helloCMain, exec, h0, h1]
  · left
    simp [helloCRun, helloCMain, exec, h0]

theorem helloGoRun_cases (fails : SetupCall GoRes → Bool) (reads : List ReadResult) :
    (fails .RemoveMemlock = true ∧
        helloGoRun fails reads = [.fatal .RemoveMemlock, .exit 1])
      ∨ (fails (.acquire .events) = true ∧
        helloGoRun fails reads = [.done .RemoveMemlock, .fatal (.acquire .events), .exit 1])
      ∨ (fails (.acquire .rd) = true ∧
        helloGoRun fails reads
          = [.done .RemoveMemlock, .done (.acquire .events), .fatal (.acquire .rd), .exit 1])
      ∨ (fails (.acquire .prog) = true ∧
        helloGoRun fails reads
          = [.done .RemoveMemlock, .done (.acquire .events), .done (.acquire .rd),
              .fatal (.acquire .prog), .exit 1])
      ∨ (fails (.acquire .tp) = true ∧
        helloGoRun fails reads
          = [.done .RemoveMemlock, .done (.acquire .events), .done (.acquire .rd),
              .done (.acquire .prog), .fatal (.acquire .tp), .exit 1])
      ∨ ((∀ c, fails c = false) ∧
        helloGoRun fails reads
          = [.done .RemoveMemlock, .done (.acquire .events), .done (.acquire .rd),
              .done (.acquire .prog), .done (.acquire .tp), .log .waiting]
            ++ (loopEvents [.rd] (helloGoLoop reads).log
              ++ (if (helloGoLoop reads).returned
                  then returnFromMain [.tp, .prog, .rd, .events] else []))) := by
  cases h0 : fails .RemoveMemlock
  · cases h1 : fails (.acquire .events)
    · cases h2 : fails (.acquire .rd)
      · cases h3 : fails (.acquire .prog)
        · cases h4 : fails (.acquire .tp)
          · right; right; right; right; right
            refine ⟨?_, ?_⟩
            · intro c
              cases c with
              | RemoveMemlock => exact h0
              | acquire r => cases r <;> assumption
            · simp [helloGoRun, helloGoMain, exec, h0, h1, h2, h3, h4]
          · right; right; right; right; left
            simp [helloGoRun, helloGoMain, exec, h0, h1, h2, h3, h4]
        · right; right; right; left
          simp [helloGoRun, helloGoMain, exec, h0, h1, h2, h3]
      · right; right; left
        simp [helloGoRun, helloGoMain, exec, h0, h1, h2]
    · right; left
      simp [helloGoRun, helloGoMain, exec, h0, h1]
  · left
    simp [helloGoRun, helloGoMain, exec, h0]

/-! ## The claims -/

/-- C1: for every byte sequence shorter than 24 bytes, decoding it into an
event record with `binary.Read` returns an error and leaves the destination
record exactly as it was before the call. In both loops the iteration then
only logs the parse fault; in `hello_c`, where the record variable is reused,
the loop goes on with the variable unchanged. -/
theorem C1_short_record_rejected (raw : List Byte) (data : eventData)
    (h : raw.length < 24) :
    (binary.Read raw data).1 ≠ none
      ∧ (binary.Read raw data).2 = data
      ∧ (∀ rest : List ReadResult,
          (helloCLoop data (.record raw :: rest)).log
            = .parsingFault (if raw.length = 0 then .EOF else .ErrUnexpectedEOF)
                :: (helloCLoop data rest).log)
      ∧ (∀ rest : List ReadResult,
          (helloGoLoop (.record raw :: rest)).log
            = .parsingFault (if raw.length = 0 then .EOF else .ErrUnexpectedEOF)
                :: (helloGoLoop rest).log) := by
  have hd : decodes raw = false := by
    cases hdec : decodes raw with
    | false => rfl
    | true => have := (decodes_iff raw).1 hdec; omega
  refine ⟨?_, ?_, ?_, ?_⟩
  · rw [Read_short raw data h]; simp
  · rw [Read_short raw data h]
  · intro rest
    have h1 := (helloCLoop_record data raw rest).1
    simpa [hd] using h1
  · intro rest
    have h1 := (helloGoLoop_record raw rest).1
    simpa [hd] using h1

/-- Witness of C1: the malformed 10-byte record, decoded into a record that
already holds the fields of an earlier event. -/
theorem C1_short_record_rejected_witness :
    malformedRecord.length < 24
      ∧ (binary.Read malformedRecord (decodeValue validRecordA)).1 ≠ none
      ∧ (binary.Read malformedRecord (decodeValue validRecordA)).2 = decodeValue validRecordA :=
  ⟨by decide,
    (C1_short_record_rejected malformedRecord (decodeValue validRecordA) (by decide)).1,
    (C1_short_record_rejected malformedRecord (decodeValue validRecordA) (by decide)).2.1⟩

/-- C2: for every byte sequence `b` of length at least 24, decoding succeeds
with `Uid = b[0] + b[1]*2^8 + b[2]*2^16 + b[3]*2^24`,
`Pid = b[4] + b[5]*2^8 + b[6]*2^16 + b[7]*2^24` and `Comm` the 16 bytes
`b[8..24)`; the bytes from index 24 on, and the previous contents of the
destination, do not influence the result. -/
theorem C2_decode_little_endian (b : List Byte) (data : eventData) (h : 24 ≤ b.length) :
    (binary.Read b data).1 = none
      ∧ (binary.Read b data).2.Uid
          = (b.getD 0 0).val + (b.getD 1 0).val * 2 ^ 8 + (b.getD 2 0).val * 2 ^ 16
            + (b.getD 3 0).val * 2 ^ 24
      ∧ (binary.Read b data).2.Pid
          = (b.getD 4 0).val + (b.getD 5 0).val * 2 ^ 8 + (b.getD 6 0).val * 2 ^ 16
            + (b.getD 7 0).val * 2 ^ 24
      ∧ (binary.Read b data).2.Comm = (b.drop 8).take 16
      ∧ (binary.Read b data).2.Comm.length = 16
      ∧ (∀ (tail : List Byte) (data1 : eventData),
          binary.Read (b.take 24 ++ tail) data1 = binary.Read b data) := by
  rw [Read_ok b data h, decodeValue_take]
  refine ⟨rfl, rfl, rfl, rfl, ?_, ?_⟩
  · simp only [List.length_take, List.length_drop]; omega
  · intro tail data1
    have hl : 24 ≤ (b.take 24 ++ tail).length := by
      simp only [List.length_append, List.length_take]; omega
    rw [Read_ok _ data1 hl, ← decodeValue_take]
    congr 1
    rw [List.take_append_of_le_length (by simp only [List.length_take]; omega), List.take_take]
    simp

/-- Witness of C2: the valid record of uid 1000, pid 4242 and name `cat`,
followed by two stray bytes. -/
theorem C2_decode_little_endian_witness :
    24 ≤ (validRecordA ++ [9, 9]).length
      ∧ (binary.Read (validRecordA ++ [9, 9]) eventData.zero).2.Uid
          = 232 + 3 * 2 ^ 8 + 0 * 2 ^ 16 + 0 * 2 ^ 24
      ∧ (binary.Read (validRecordA ++ [9, 9]) eventData.zero).2.Comm = catField :=
  ⟨by decide,
    (C2_decode_little_endian (validRecordA ++ [9, 9]) eventData.zero (by decide)).2.1,
    (C2_decode_little_endian (validRecordA ++ [9, 9]) eventData.zero (by decide)).2.2.2.1⟩

/-- C3 (at the failing input): on the 16-byte name field `a`, NUL, `b`
followed by thirteen NUL bytes, the bytes before the first NUL are `a`;
`unix.ByteSliceToString` of `hello_c` renders `a`, but
`bytes.TrimRight(.., "\x00")` of `hello_go` renders the three bytes `a`, NUL,
`b`, and the `hello_go` loop reports that text. The renderer of `hello_c`
gives the bytes before the first NUL on every field; the renderer of
`hello_go` does so on every field whose bytes after the name are all NUL, such
as `cat` followed by thirteen NUL bytes. -/
theorem C3_hello_go_renders_past_first_nul :
    (interiorNulField.length = 16
        ∧ untilFirstNul interiorNulField = [97]
        ∧ ByteSliceToString interiorNulField = [97]
        ∧ TrimRightNul interiorNulField = [97, 0, 98]
        ∧ TrimRightNul interiorNulField ≠ untilFirstNul interiorNulField
        ∧ reportedEvents
            (helloGoLoop [.record ([232, 3, 0, 0, 146, 16, 0, 0] ++ interiorNulField)]).log
            = [(1000, 4242, [97, 0, 98])]
        ∧ ByteSliceToString catField = [99, 97, 116]
        ∧ TrimRightNul catField = [99, 97, 116])
      ∧ (∀ s : List Byte, ByteSliceToString s = untilFirstNul s)
      ∧ (∀ (p : List Byte) (n : Nat), (∀ b ∈ p, b ≠ 0) →
          TrimRightNul (p ++ List.replicate n 0) = untilFirstNul (p ++ List.replicate n 0)) := by
  refine ⟨by decide, ByteSliceToString_eq, ?_⟩
  intro p n hp
  rw [untilFirstNul_padded p n hp]
  exact TrimRightNul_padded p n (fun hl => hp 0 (List.mem_of_getLast?_eq_some hl) rfl)

/-- C4: for every finite sequence of records returned by successful reads,
each loop reports exactly the records that decode (those of at least 24
bytes), once each and in arrival order, and logs a parse fault in place of
every other record; in particular a valid record, a malformed 10-byte record
and a valid record give exactly the two events of the first and third
records, in that order. -/
theorem C4_reports_once_in_order (rs : List (List Byte)) (event : eventData) :
    reportedEvents (helloGoLoop (rs.map .record)).log = (rs.filter decodes).map goReport
      ∧ reportedEvents (helloCLoop event (rs.map .record)).log = (rs.filter decodes).map cReport
      ∧ (helloGoLoop (rs.map .record)).log.length = rs.length
      ∧ (helloCLoop event (rs.map .record)).log.length = rs.length
      ∧ (∀ raw : List Byte, decodes raw = true ↔ 24 ≤ raw.length)
      ∧ reportedEvents
          (helloGoLoop [.record validRecordA, .record malformedRecord, .record validRecordB]).log
          = [(1000, 4242, [99, 97, 116]), (0, 1, [115, 104])]
      ∧ reportedEvents
          (helloCLoop event
            [.record validRecordA, .record malformedRecord, .record validRecordB]).log
          = [(1000, 4242, [99, 97, 116]), (0, 1, [115, 104])] := by
  have hc := helloCLoop_records [validRecordA, malformedRecord, validRecordB] event
  refine ⟨?_, ?_, ?_, ?_, decodes_iff, by decide, ?_⟩
  · rw [helloGoLoop_records, reportedEvents_map]
  · rw [helloCLoop_records, reportedEvents_map]
  · rw [helloGoLoop_records, List.length_map]
  · rw [helloCLoop_records, List.length_map]
  · simp only [List.map_cons, List.map_nil] at hc
    rw [hc]
    decide

/-- C5: for every sequence of read results, each loop returns exactly at the
first read whose error is the closed condition: up to that read it has not
returned, at that read it logs only the normal-termination line (no fault and
no event beyond those of the earlier reads), and it consumes no later read
result; a read that returns any other error logs the fault and the loop goes
on with the next read. -/
theorem C5_loop_ends_at_first_closed (pre rest : List ReadResult) (err : ReadErr)
    (event : bpfEvent) (hpre : ∀ r ∈ pre, r.isClosed = false) (herr : err.isClosed = true) :
    ((helloGoLoop (pre ++ .fault err :: rest)).returned = true
        ∧ (helloGoLoop (pre ++ .fault err :: rest)).unread = rest
        ∧ (helloGoLoop (pre ++ .fault err :: rest)).log = (helloGoLoop pre).log ++ [.exiting]
        ∧ (helloGoLoop pre).returned = false
        ∧ loggedFaults (helloGoLoop (pre ++ .fault err :: rest)).log
            = loggedFaults (helloGoLoop pre).log
        ∧ reportedEvents (helloGoLoop (pre ++ .fault err :: rest)).log
            = reportedEvents (helloGoLoop pre).log)
      ∧ ((helloCLoop event (pre ++ .fault err :: rest)).returned = true
        ∧ (helloCLoop event (pre ++ .fault err :: rest)).unread = rest
        ∧ (helloCLoop event (pre ++ .fault err :: rest)).log
            = (helloCLoop event pre).log ++ [.exiting]
        ∧ (helloCLoop event pre).returned = false
        ∧ loggedFaults (helloCLoop event (pre ++ .fault err :: rest)).log
            = loggedFaults (helloCLoop event pre).log
        ∧ reportedEvents (helloCLoop event (pre ++ .fault err :: rest)).log
            = reportedEvents (helloCLoop event pre).log)
      ∧ (∀ (e : ReadErr) (reads : List ReadResult), e.isClosed = false →
          (helloGoLoop (.fault e :: reads)).log = .readingFault e :: (helloGoLoop reads).log
            ∧ (helloGoLoop (.fault e :: reads)).returned = (helloGoLoop reads).returned
            ∧ (helloGoLoop (.fault e :: reads)).unread = (helloGoLoop reads).unread)
      ∧ (∀ (e : ReadErr) (reads : List ReadResult), e.isClosed = false →
          (helloCLoop event (.fault e :: reads)).log
              = .readingFault e :: (helloCLoop event reads).log
            ∧ (helloCLoop event (.fault e :: reads)).returned
              = (helloCLoop event reads).returned
            ∧ (helloCLoop event (.fault e :: reads)).unread
              = (helloCLoop event reads).unread) := by
  have hg := helloGoLoop_closed pre rest err hpre herr
  have hc := helloCLoop_closed pre rest err hpre herr event
  refine ⟨⟨hg.1, hg.2.1, hg.2.2.1, hg.2.2.2, ?_, ?_⟩, ⟨hc.1, hc.2.1, hc.2.2.1, hc.2.2.2, ?_, ?_⟩,
    fun e reads he => helloGoLoop_fault e reads he,
    fun e reads he => helloCLoop_fault event e reads he⟩
  · rw [hg.2.2.1, loggedFaults_append_exiting]
  · rw [hg.2.2.1, reportedEvents_append_exiting]
  · rw [hc.2.2.1, loggedFaults_append_exiting]
  · rw [hc.2.2.1, reportedEvents_append_exiting]

/-- Witness of C5: a valid record, a read fault, the closed condition, then a
record that is never read. -/
theorem C5_loop_ends_at_first_closed_witness :
    (∀ r ∈ [ReadResult.record validRecordA, .fault otherErr], r.isClosed = false)
      ∧ closedErr.isClosed = true
      ∧ (helloGoLoop ([.record validRecordA, .fault otherErr]
            ++ .fault closedErr :: [.record validRecordB])).returned = true
      ∧ (helloGoLoop ([.record validRecordA, .fault otherErr]
            ++ .fault closedErr :: [.record validRecordB])).unread = [.record validRecordB] :=
  ⟨by decide, rfl,
    (C5_loop_ends_at_first_closed [.record validRecordA, .fault otherErr]
      [.record validRecordB] closedErr eventData.zero (by decide) rfl).1.1,
    (C5_loop_ends_at_first_closed [.record validRecordA, .fault otherErr]
      [.record validRecordB] closedErr eventData.zero (by decide) rfl).1.2.1⟩

/-- C6 (counterexample): when the call that opens the ring buffer reader of
`hello_c` fails, the objects and the kprobe have been acquired and their
deferred `Close` calls registered, yet the run ends with `log.Fatalf` and exit
status 1 without releasing either of them; likewise `hello_go` releases
neither the map nor the reader when loading the program fails. The released
resources are not the acquired ones in reverse order. -/
theorem C6_reader_failure_releases_nothing :
    helloCRun readerFails []
        = [.done .RemoveMemlock, .done (.acquire .objs), .done (.acquire .kp),
            .fatal (.acquire .rd), .exit 1]
      ∧ acquired (helloCRun readerFails []) = [.objs, .kp]
      ∧ released (helloCRun readerFails []) = []
      ∧ released (helloCRun readerFails []) ≠ (acquired (helloCRun readerFails [])).reverse
      ∧ acquired (helloGoRun progFails []) = [.events, .rd]
      ∧ released (helloGoRun progFails []) = []
      ∧ released (helloGoRun progFails []) ≠ (acquired (helloGoRun progFails [])).reverse := by
  decide

/-- C6 (amended): whenever a setup call fails, in `hello_c` and in `hello_go`,
the run consists of the setup calls that succeeded before it, the fatal log
line of the failing call and the exit with status 1: no deferred `Close` runs,
so no resource is released by the program, and the loop is never entered. -/
theorem C6_setup_failure_exits_without_release (failsC : SetupCall CRes → Bool)
    (failsGo : SetupCall GoRes → Bool) (reads : List ReadResult)
    (hC : ∃ c, failsC c = true) (hGo : ∃ c, failsGo c = true) :
    (∃ (c : SetupCall CRes) (k : Nat), failsC c = true
        ∧ helloCRun failsC reads
            = (helloCSetup.take k).map Event.done ++ [.fatal c, .exit 1])
      ∧ released (helloCRun failsC reads) = []
      ∧ exitCode (helloCRun failsC reads) = some 1
      ∧ (∃ (c : SetupCall GoRes) (k : Nat), failsGo c = true
        ∧ helloGoRun failsGo reads
            = (helloGoSetup.take k).map Event.done ++ [.fatal c, .exit 1])
      ∧ released (helloGoRun failsGo reads) = []
      ∧ exitCode (helloGoRun failsGo reads) = some 1 := by
  have c1 : (∃ (c : SetupCall CRes) (k : Nat), failsC c = true
        ∧ helloCRun failsC reads
            = (helloCSetup.take k).map Event.done ++ [.fatal c, .exit 1])
      ∧ released (helloCRun failsC reads) = []
      ∧ exitCode (helloCRun failsC reads) = some 1 := by
    rcases helloCRun_cases failsC reads with h | h | h | h | h
    · exact ⟨⟨_, 0, h.1, h.2⟩, by rw [h.2]; rfl, by rw [h.2]; rfl⟩
    · exact ⟨⟨_, 1, h.1, h.2⟩, by rw [h.2]; rfl, by rw [h.2]; rfl⟩
    · exact ⟨⟨_, 2, h.1, h.2⟩, by rw [h.2]; rfl, by rw [h.2]; rfl⟩
    · exact ⟨⟨_, 3, h.1, h.2⟩, by rw [h.2]; rfl, by rw [h.2]; rfl⟩
    · obtain ⟨c, hc⟩ := hC
      rw [h.1 c] at hc
      exact absurd hc (by decide)
  have c2 : (∃ (c : SetupCall GoRes) (k : Nat), failsGo c = true
        ∧ helloGoRun failsGo reads
            = (helloGoSetup.take k).map Event.done ++ [.fatal c, .exit 1])
      ∧ released (helloGoRun failsGo reads) = []
      ∧ exitCode (helloGoRun failsGo reads) = some 1 := by
    rcases helloGoRun_cases failsGo reads with h | h | h | h | h | h
    · exact ⟨⟨_, 0, h.1, h.2⟩, by rw [h.2]; rfl, by rw [h.2]; rfl⟩
    · exact ⟨⟨_, 1, h.1, h.2⟩, by rw [h.2]; rfl, by rw [h.2]; rfl⟩
    · exact ⟨⟨_, 2, h.1, h.2⟩, by rw [h.2]; rfl, by rw [h.2]; rfl⟩
    · exact ⟨⟨_, 3, h.1, h.2⟩, by rw [h.2]; rfl, by rw [h.2]; rfl⟩
    · exact ⟨⟨_, 4, h.1, h.2⟩, by rw [h.2]; rfl, by rw [h.2]; rfl⟩
    · obtain ⟨c, hc⟩ := hGo
      rw [h.1 c] at hc
      exact absurd hc (by decide)
  exact ⟨c1.1, c1.2.1, c1.2.2, c2.1, c2.2.1, c2.2.2⟩

/-- Witness of C6 (amended): the reader of `hello_c` and the program of
`hello_go` fail to open and to load. -/
theorem C6_setup_failure_exits_without_release_witness :
    (∃ c, readerFails c = true) ∧ (∃ c, progFails c = true)
      ∧ released (helloCRun readerFails [.fault closedErr]) = []
      ∧ exitCode (helloCRun readerFails [.fault closedErr]) = some 1
      ∧ released (helloGoRun progFails [.fault closedErr]) = []
      ∧ exitCode (helloGoRun progFails [.fault closedErr]) = some 1 :=
  ⟨⟨.acquire .rd, rfl⟩, ⟨.acquire .prog, rfl⟩,
    (C6_setup_failure_exits_without_release readerFails progFails [.fault closedErr]
      ⟨.acquire .rd, rfl⟩ ⟨.acquire .prog, rfl⟩).2.1,
    (C6_setup_failure_exits_without_release readerFails progFails [.fault closedErr]
      ⟨.acquire .rd, rfl⟩ ⟨.acquire .prog, rfl⟩).2.2.1,
    (C6_setup_failure_exits_without_release readerFails progFails [.fault closedErr]
      ⟨.acquire .rd, rfl⟩ ⟨.acquire .prog, rfl⟩).2.2.2.2.1,
    (C6_setup_failure_exits_without_release readerFails progFails [.fault closedErr]
      ⟨.acquire .rd, rfl⟩ ⟨.acquire .prog, rfl⟩).2.2.2.2.2⟩

/-- C7 (counterexample): in the run of `hello_c` where every setup call
succeeds the kprobe is attached before the ring buffer reader is opened, and
in that run of `hello_go` the perf reader is opened before the program is
loaded; neither sequence of setup steps is the stated one. -/
theorem C7_setup_order_differs :
    (setupDone (helloCRun noFailure [])).map cKind = [.limit, .load, .hook, .reader]
      ∧ (setupDone (helloCRun noFailure [])).map cKind ≠ statedOrder
      ∧ acquired (helloCRun noFailure []) = [.objs, .kp, .rd]
      ∧ (setupDone (helloGoRun noFailure [])).map goKind
          = [.limit, .load, .reader, .load, .hook]
      ∧ (setupDone (helloGoRun noFailure [])).map goKind ≠ statedOrder
      ∧ acquired (helloGoRun noFailure []) = [.events, .rd, .prog, .tp] := by
  decide

/-- C7 (amended): in every run, the setup calls that succeed are an initial
part of the fixed sequence of the program: memory-limit relaxation, objects,
kprobe, ring buffer reader in `hello_c`; memory-limit relaxation, map, perf
reader, program, raw tracepoint in `hello_go`. -/
theorem C7_setup_follows_program_order (failsC : SetupCall CRes → Bool)
    (failsGo : SetupCall GoRes → Bool) (reads : List ReadResult) :
    (∃ k, setupDone (helloCRun failsC reads) = helloCSetup.take k)
      ∧ (∃ k, setupDone (helloGoRun failsGo reads) = helloGoSetup.take k)
      ∧ helloCSetup.map cKind = [.limit, .load, .hook, .reader]
      ∧ helloGoSetup.map goKind = [.limit, .load, .reader, .load, .hook] := by
  refine ⟨?_, ?_, rfl, rfl⟩
  · rcases helloCRun_cases failsC reads with h | h | h | h | h
    · exact ⟨0, by rw [h.2]; rfl⟩
    · exact ⟨1, by rw [h.2]; rfl⟩
    · exact ⟨2, by rw [h.2]; rfl⟩
    · exact ⟨3, by rw [h.2]; rfl⟩
    · refine ⟨4, ?_⟩
      rw [h.2, setupDone_append, setupDone_append, setupDone_loopEvents]
      split <;> rfl
  · rcases helloGoRun_cases failsGo reads with h | h | h | h | h | h
    · exact ⟨0, by rw [h.2]; rfl⟩
    · exact ⟨1, by rw [h.2]; rfl⟩
    · exact ⟨2, by rw [h.2]; rfl⟩
    · exact ⟨3, by rw [h.2]; rfl⟩
    · exact ⟨4, by rw [h.2]; rfl⟩
    · refine ⟨5, ?_⟩
      rw [h.2, setupDone_append, setupDone_append, setupDone_loopEvents]
      split <;> rfl

/-- C9 (counterexample): in the run of `hello_go` where setup succeeds and the
first read gives the closed condition, the signal goroutine has closed the
reader before the loop returns, so the reader is released first, while the
program and the tracepoint acquired after it are still unreleased; the
deferred calls then close tracepoint, program, reader (already closed) and
map. The order of release is reader, tracepoint, program, map, which is not
the reverse of the acquisition order map, reader, program, tracepoint. -/
theorem C9_hello_go_reader_released_first :
    helloGoRun noFailure [.fault closedErr]
        = [.done .RemoveMemlock, .done (.acquire .events), .done (.acquire .rd),
            .done (.acquire .prog), .done (.acquire .tp), .log .waiting,
            .signalClosed .rd, .log .exiting,
            .closed .tp, .closed .prog, .closed .rd, .closed .events, .exit 0]
      ∧ acquired (helloGoRun noFailure [.fault closedErr]) = [.events, .rd, .prog, .tp]
      ∧ released (helloGoRun noFailure [.fault closedErr]) = [.rd, .tp, .prog, .rd, .events]
      ∧ releaseOrder (helloGoRun noFailure [.fault closedErr]) = [.rd, .tp, .prog, .events]
      ∧ releaseOrder (helloGoRun noFailure [.fault closedErr])
          ≠ (acquired (helloGoRun noFailure [.fault closedErr])).reverse := by
  decide

/-- C9 (amended): when setup succeeds and the loop returns after a read gave
the closed condition, the reader has been closed by the signal goroutine, and
then the deferred `Close` calls run in exactly the reverse of the acquisition
order: tracepoint, program, reader, map in `hello_go` and reader, kprobe,
objects in `hello_c`, the deferred close of the reader finding it closed. The
resources are thus released in the order reader, kprobe, objects in `hello_c`,
the reverse of their acquisition, and in the order reader, tracepoint,
program, map in `hello_go`. -/
theorem C9_teardown_after_signal_close (reads : List ReadResult)
    (h : ∃ r ∈ reads, r.isClosed = true) :
    (helloGoRun noFailure reads
        = [.done .RemoveMemlock, .done (.acquire .events), .done (.acquire .rd),
            .done (.acquire .prog), .done (.acquire .tp), .log .waiting]
          ++ (loopEvents [.rd] (helloGoLoop reads).log
            ++ [.closed .tp, .closed .prog, .closed .rd, .closed .events, .exit 0])
      ∧ acquired (helloGoRun noFailure reads) = [.events, .rd, .prog, .tp]
      ∧ deferredCloses (helloGoRun noFailure reads) = [.tp, .prog, .rd, .events]
      ∧ deferredCloses (helloGoRun noFailure reads)
          = (acquired (helloGoRun noFailure reads)).reverse
      ∧ released (helloGoRun noFailure reads) = [.rd, .tp, .prog, .rd, .events]
      ∧ releaseOrder (helloGoRun noFailure reads) = [.rd, .tp, .prog, .events])
      ∧ (helloCRun noFailure reads
        = [.done .RemoveMemlock, .done (.acquire .objs), .done (.acquire .kp),
            .done (.acquire .rd), .log .waiting]
          ++ (loopEvents [.rd] (helloCLoop eventData.zero reads).log
            ++ [.closed .rd, .closed .kp, .closed .objs, .exit 0])
      ∧ acquired (helloCRun noFailure reads) = [.objs, .kp, .rd]
      ∧ deferredCloses (helloCRun noFailure reads) = [.rd, .kp, .objs]
      ∧ deferredCloses (helloCRun noFailure reads)
          = (acquired (helloCRun noFailure reads)).reverse
      ∧ released (helloCRun noFailure reads) = [.rd, .rd, .kp, .objs]
      ∧ releaseOrder (helloCRun noFailure reads) = [.rd, .kp, .objs]
      ∧ releaseOrder (helloCRun noFailure reads)
          = (acquired (helloCRun noFailure reads)).reverse) := by
  have hg : (helloGoLoop reads).returned = true := (helloGoLoop_returned_iff reads).2 h
  have hc : (helloCLoop eventData.zero reads).returned = true :=
    (helloCLoop_returned_iff reads eventData.zero).2 h
  have eg : helloGoRun noFailure reads
        = [.done .RemoveMemlock, .done (.acquire .events), .done (.acquire .rd),
            .done (.acquire .prog), .done (.acquire .tp), .log .waiting]
          ++ (loopEvents [.rd] (helloGoLoop reads).log
            ++ [.closed .tp, .closed .prog, .closed .rd, .closed .events, .exit 0]) := by
    simp [helloGoRun, helloGoMain, exec, noFailure, hg, returnFromMain]
  have ec : helloCRun noFailure reads
        = [.done .RemoveMemlock, .done (.acquire .objs), .done (.acquire .kp),
            .done (.acquire .rd), .log .waiting]
          ++ (loopEvents [.rd] (helloCLoop eventData.zero reads).log
            ++ [.closed .rd, .closed .kp, .closed .objs, .exit 0]) := by
    simp [helloCRun, helloCMain, exec, noFailure, hc, returnFromMain]
  have ag : acquired (helloGoRun noFailure reads) = [.events, .rd, .prog, .tp] := by
    rw [eg, acquired_append, acquired_append, acquired_loopEvents]
    rfl
  have dg : deferredCloses (helloGoRun noFailure reads) = [.tp, .prog, .rd, .events] := by
    rw [eg, deferredCloses_append, deferredCloses_append, deferredCloses_loopEvents]
    rfl
  have rg : released (helloGoRun noFailure reads) = [.rd, .tp, .prog, .rd, .events] := by
    rw [eg, released_append, released_append, released_loopEvents_go, if_pos hg]
    rfl
  have ac : acquired (helloCRun noFailure reads) = [.objs, .kp, .rd] := by
    rw [ec, acquired_append, acquired_append, acquired_loopEvents]
    rfl
  have dc : deferredCloses (helloCRun noFailure reads) = [.rd, .kp, .objs] := by
    rw [ec, deferredCloses_append, deferredCloses_append, deferredCloses_loopEvents]
    rfl
  have rc : released (helloCRun noFailure reads) = [.rd, .rd, .kp, .objs] := by
    rw [ec, released_append, released_append, released_loopEvents_c, if_pos hc]
    rfl
  have og : releaseOrder (helloGoRun noFailure reads) = [.rd, .tp, .prog, .events] := by
    rw [releaseOrder, rg]; decide
  have oc : releaseOrder (helloCRun noFailure reads) = [.rd, .kp, .objs] := by
    rw [releaseOrder, rc]; decide
  exact ⟨⟨eg, ag, dg, by rw [ag, dg]; rfl, rg, og⟩,
    ⟨ec, ac, dc, by rw [ac, dc]; rfl, rc, oc, by rw [ac, oc]; rfl⟩⟩

/-- Witness of C9 (amended): a valid record is read, then the closed
condition. -/
theorem C9_teardown_after_signal_close_witness :
    (∃ r ∈ [ReadResult.record validRecordA, .fault closedErr], r.isClosed = true)
      ∧ deferredCloses (helloGoRun noFailure [.record validRecordA, .fault closedErr])
          = [.tp, .prog, .rd, .events]
      ∧ releaseOrder (helloGoRun noFailure [.record validRecordA, .fault closedErr])
          = [.rd, .tp, .prog, .events]
      ∧ releaseOrder (helloCRun noFailure [.record validRecordA, .fault closedErr])
          = [.rd, .kp, .objs] :=
  ⟨⟨.fault closedErr, by decide, rfl⟩,
    (C9_teardown_after_signal_close [.record validRecordA, .fault closedErr]
      ⟨.fault closedErr, by decide, rfl⟩).1.2.2.1,
    (C9_teardown_after_signal_close [.record validRecordA, .fault closedErr]
      ⟨.fault closedErr, by decide, rfl⟩).1.2.2.2.2.2,
    (C9_teardown_after_signal_close [.record validRecordA, .fault closedErr]
      ⟨.fault closedErr, by decide, rfl⟩).2.2.2.2.2.2.1⟩

/-- C8: in the instruction sequence assembled in `hello_go`, the only label
referenced by a jump is `exit`, referenced by the `JNE` at list index 2, and
it is marked exactly once, on the `Mov.Imm` at list index 20; resolution
succeeds, and the resolved offset of that jump, added to the jump's own
position plus one, is the position of the instruction carrying the label,
positions being counted in instruction units, of which `LoadMapPtr` (index 12)
and the double-word `LoadImm` (index 13) occupy two each. -/
theorem C8_exit_label_resolves (fd : Int) :
    referencedAt (helloGoInstructions fd) 0 = [(2, "exit")]
      ∧ markedAt (helloGoInstructions fd) 0 = [(20, "exit")]
      ∧ (helloGoInstructions fd).get? 2 = some (asm.JNE.Imm .R6 59 "exit")
      ∧ (helloGoInstructions fd).get? 20 = some ((asm.Mov.Imm .R0 0).Sym "exit")
      ∧ (∃ out : List Instruction,
          resolve (helloGoInstructions fd) = .ok out
            ∧ out.length = (helloGoInstructions fd).length
            ∧ referencedAt out 0 = []
            ∧ markedAt out 0 = []
            ∧ jumpOffset out 2 = some 19
            ∧ (19 : Int) + (unitPos (helloGoInstructions fd) 2 : Int) + 1
                = (unitPos (helloGoInstructions fd) 20 : Int))
      ∧ unitPos (helloGoInstructions fd) 2 = 2
      ∧ unitPos (helloGoInstructions fd) 20 = 22
      ∧ ((helloGoInstructions fd).map Instruction.units).get? 12 = some 2
      ∧ ((helloGoInstructions fd).map Instruction.units).get? 13 = some 2
      ∧ ((helloGoInstructions fd).map Instruction.units).sum = 24 := by
  have hu : (helloGoInstructions fd).map Instruction.units
      = [1, 1, 1, 1, 1, 1, 1, 1, 1, 1, 1, 1, 2, 2, 1, 1, 1, 1, 1, 1, 1, 1] := rfl
  have h2 : unitPos (helloGoInstructions fd) 2 = 2 := by
    rw [unitPos, List.map_take, hu]; decide
  have h20 : unitPos (helloGoInstructions fd) 20 = 22 := by
    rw [unitPos, List.map_take, hu]; decide
  refine ⟨rfl, rfl, rfl, rfl, ⟨_, rfl, rfl, rfl, rfl, rfl, ?_⟩, h2, h20, ?_, ?_, ?_⟩
  · rw [h2, h20]; decide
  · rw [hu]; rfl
  · rw [hu]; rfl
  · rw [hu]; decide

/-- C10: on its emitting path the assembled program stores the low word of
the uid helper's result at frame-pointer offset -24 and that of the pid
helper's result at offset -20, passes the get-name helper the buffer at offset
-16 with length 16, and calls the emit helper with data pointer
frame-pointer-24 and size 24. Relative to the start of the emitted data the
fields lie at offsets 0, 4 and 8 with lengths 4, 4 and 16: they are the fields
the decoder reads, they follow one another without overlap, they cover all 24
bytes, and 24 is the size of `eventData` (4 + 4 + 16). -/
theorem C10_emitted_layout_matches_decoder (fd : Int) :
    (emitPath fd).stores
        = [⟨-24, .Word, .ret .FnGetCurrentUidGid⟩, ⟨-20, .Word, .ret .FnGetCurrentPidTgid⟩]
      ∧ (emitPath fd).calls.get? 2
          = some ⟨.FnGetCurrentComm, .fp (-16), .imm 16, .unknown, .unknown, .unknown⟩
      ∧ (emitPath fd).calls.get? 3
          = some ⟨.FnPerfEventOutput, .ctx, .mapPtr fd, .imm 0xffffffff, .fp (-24), .imm 24⟩
      ∧ (emitPath fd).calls.length = 4
      ∧ (emitPath fd).halted = true
      ∧ emittedRecord (emitPath fd) = some ([⟨0, 4⟩, ⟨4, 4⟩, ⟨8, 16⟩], 24)
      ∧ emittedRecord (emitPath fd) = some (decoderFields, (dataSize : Int))
      ∧ tiles decoderFields 0 24 = true
      ∧ dataSize = 24
      ∧ dataSize = 4 + 4 + 16
      ∧ Size.Word.Sizeof = 4
      ∧ (∀ buf : List Byte,
          decodeValue buf
            = { Uid := LittleEndian.Uint32 ((buf.drop 0).take 4)
                Pid := LittleEndian.Uint32 ((buf.drop 4).take 4)
                Comm := (buf.drop 8).take 16 }) :=
  ⟨rfl, rfl, rfl, rfl, rfl, rfl, rfl, rfl, rfl, rfl, rfl, fun _ => rfl⟩

end Ebpf
